import Mathlib

/-!
Shallow embedding of the ViSCAT 4CAT processors:
`processors/video_scene_data_translation.py` (shot aggregation, pace
statistics, merge/output) and `machine_learning/vlm_annotate_scene.py`
(archive annotation matching).  Durations are modelled as rational numbers
of seconds; Python exceptions are modelled explicitly (division raises on a
zero divisor).  The cooperative interruption flag is modelled as never set:
only non-interrupted executions are embedded.
-/

namespace ViSCAT

/-- One row of the source dataset of `VideoSceneFrames.process`: a detected
shot.  Fields mirror the keys read from `shot` in the Python loop; the
duration strings are modelled after `pd.to_timedelta` conversion, as
rational numbers of seconds. -/
structure ShotRecord where
  url : String
  start_time : ℚ
  end_time : ℚ
  total_video_duration : ℚ
  start_fps : ℚ
  num_scenes_detected : Int
deriving DecidableEq

/-- `shot_duration = end_time - start_time`. -/
def shotDur (s : ShotRecord) : ℚ := s.end_time - s.start_time

/-- One entry of `video_metadata` as built by the first loop of
`VideoSceneFrames.process`. -/
structure VideoMeta where
  id : String
  frame_rate : ℚ
  shot_count : Int
  total_duration : ℚ
  shot_duration_list : List ℚ
deriving DecidableEq

/-- One iteration of the first loop of `VideoSceneFrames.process`: append
the shot duration to every already-logged video with the same id
(the inner Python loop has no break); if none exists, append a fresh entry
seeded from this record. -/
def processShot (vm : List VideoMeta) (s : ShotRecord) : List VideoMeta :=
  let idExist := vm.any (fun v => v.id == s.url)
  let vm2 := vm.map (fun v =>
    if v.id == s.url then
      { v with shot_duration_list := v.shot_duration_list ++ [shotDur s] }
    else v)
  if idExist then vm2
  else vm2 ++ [{ id := s.url, frame_rate := s.start_fps,
                 shot_count := s.num_scenes_detected,
                 total_duration := s.total_video_duration,
                 shot_duration_list := [shotDur s] }]

/-- The whole first loop of `VideoSceneFrames.process`, over the shot
stream delivered by `iterate_items`. -/
def aggregateShots (stream : List ShotRecord) : List VideoMeta :=
  stream.foldl processShot []

/-- Python division on rationals: raises `ZeroDivisionError` on a zero
divisor, which the statistics loop does not catch. -/
def pyDiv (a b : ℚ) : Except String ℚ :=
  if b = 0 then Except.error "ZeroDivisionError" else Except.ok (a / b)

/-- `np.median`: mean of the two middle order statistics of the ascending
sort (a single formula covering odd and even lengths, as numpy computes). -/
def npMedian (l : List ℚ) : ℚ :=
  let s := l.insertionSort (fun a b => a ≤ b)
  let n := l.length
  (s.getD ((n - 1) / 2) 0 + s.getD (n / 2) 0) / 2

/-- The spec's wording of the median (for the refinement claim about
`msl`): after numeric sort, odd length gives the middle element, even
length the arithmetic mean of the two middle elements. -/
def medianSpec (l : List ℚ) : ℚ :=
  let s := l.insertionSort (fun a b => a ≤ b)
  let n := l.length
  if n % 2 = 1 then s.getD (n / 2) 0
  else (s.getD (n / 2 - 1) 0 + s.getD (n / 2) 0) / 2

/-- A `video_metadata` entry after the statistics loop of
`VideoSceneFrames.process` has attached `asl`, `msl` and `cuts_per_min`. -/
structure VideoStats extends VideoMeta where
  asl : ℚ
  msl : ℚ
  cuts_per_min : ℚ
deriving DecidableEq

/-- The body of the statistics loop for one video:
`asl = total_duration.total_seconds() / int(shot_count)`,
`msl = np.median(shot_duration_list)`,
`cuts_per_min = (int(shot_count) - 1) / (total_duration.total_seconds() / 60)`.
Division by zero raises. -/
def computeStats (v : VideoMeta) : Except String VideoStats :=
  match pyDiv v.total_duration (v.shot_count : ℚ) with
  | Except.error e => Except.error e
  | Except.ok asl =>
    let msl := npMedian v.shot_duration_list
    match pyDiv ((v.shot_count : ℚ) - 1) (v.total_duration / 60) with
    | Except.error e => Except.error e
    | Except.ok cpm =>
      Except.ok { toVideoMeta := v, asl := asl, msl := msl, cuts_per_min := cpm }

/-- The whole statistics loop: videos are processed in order, and the
first uncaught `ZeroDivisionError` aborts it (later videos are not
processed). -/
def computeAllStats : List VideoMeta → Except String (List VideoStats)
  | [] => Except.ok []
  | v :: rest =>
    match computeStats v with
    | Except.error e => Except.error e
    | Except.ok r =>
      match computeAllStats rest with
      | Except.error e => Except.error e
      | Except.ok rs => Except.ok (r :: rs)

/-- One row of the top parent dataset, as iterated at the merge step.  Only
the `id` column takes part in the join; the remaining columns are opaque. -/
structure ParentRow where
  id : String
  fields : List (String × String)
deriving DecidableEq

/-- One output row of `VideoSceneFrames.process`: either a parent row with
the optionally-joined video metadata (merged mode) or a bare video
metadata row (standalone mode). -/
inductive P1Row where
  | merged : ParentRow → Option VideoStats → P1Row
  | standalone : VideoStats → P1Row
deriving DecidableEq

/-- `pd.merge(df_video_list, df_video_metadata, on='id', how='left')`:
for each left row in order, one output row per matching right row (right
order), or a single row with null right columns when nothing matches. -/
def leftJoin (parents : List ParentRow) (metas : List VideoStats) : List P1Row :=
  match parents with
  | [] => []
  | p :: rest =>
    let ms := metas.filter (fun m => m.id == p.id)
    (if ms.isEmpty then [P1Row.merged p none]
     else ms.map (fun m => P1Row.merged p (some m)))
      ++ leftJoin rest metas

/-- Terminal outcome of `VideoSceneFrames.process`.  `finishedEmpty` is the
early `dataset.finish(0)` return (zero-row success, no csv written);
`error` is `finish_with_error`; `exception` is an uncaught Python
exception escaping `process`. -/
inductive P1Outcome where
  | finished : List P1Row → P1Outcome
  | finishedEmpty : P1Outcome
  | error : String → P1Outcome
  | exception : String → P1Outcome
deriving DecidableEq

/-- `VideoSceneFrames.process`: `numRows` is `self.source_dataset.num_rows`,
`stream` the shot records yielded by `iterate_items`, `parent` the top
parent rows, `mergeOnParent` the `merge_on_parent` option. -/
def videoSceneProcess (numRows : Nat) (stream : List ShotRecord)
    (parent : List ParentRow) (mergeOnParent : Bool) : P1Outcome :=
  if numRows = 0 then P1Outcome.finishedEmpty
  else
    let video_metadata := aggregateShots stream
    match computeAllStats video_metadata with
    | Except.error e => P1Outcome.exception e
    | Except.ok stats =>
      if !stats.isEmpty then
        if mergeOnParent then P1Outcome.finished (leftJoin parent stats)
        else P1Outcome.finished (stats.map P1Row.standalone)
      else P1Outcome.error "Unable to translate video metadata. Error encountered"

/-! ## Pipeline 2: `VlmSceneAnnotation.process` -/

/-- `re.sub(r'\.mp4', '', s)` on the character list: every non-overlapping
occurrence of the literal `.mp4` is removed, scanning left to right. -/
def removeMp4 : List Char → List Char
  | '.' :: 'm' :: 'p' :: '4' :: rest => removeMp4 rest
  | c :: rest => c :: removeMp4 rest
  | [] => []

/-- `re.sub(r'\.mp4', '', s)` on strings. -/
def reSubMp4 (s : String) : String := String.mk (removeMp4 s.toList)

/-- `target_id = f'{cleaned_id}.jpeg'` for a scene id. -/
def targetName (sceneId : String) : String := reSubMp4 sceneId ++ ".jpeg"

/-- One scene record from the ancestor scene-detection dataset: its `id`
plus the remaining columns as a key/value list.  A Python dict assignment
is modelled by prepending the pair (lookups see the newest binding). -/
structure SceneRecord where
  id : String
  fields : List (String × String)
deriving DecidableEq

/-- `scene_dict[column_name] = prediction`. -/
def setField (r : SceneRecord) (k v : String) : SceneRecord :=
  { r with fields := (k, v) :: r.fields }

/-- The inner matching loop of `VlmSceneAnnotation.process`: walk
`scene_list` in order; on the first record whose `targetName` equals the
file name, set the configured column to the prediction and break.  Returns
the updated list and the `match` flag. -/
def matchScenes (colName fileName pred : String) :
    List SceneRecord → List SceneRecord × Bool
  | [] => ([], false)
  | r :: rest =>
    if targetName r.id == fileName then ((setField r colName pred) :: rest, true)
    else
      let res := matchScenes colName fileName pred rest
      (r :: res.1, res.2)

/-- `pathlib.PurePath.suffix` of a file name: the substring from the last
dot, unless that dot is the first or last character. -/
def pathSuffix (name : String) : String :=
  let cs := name.toList
  match cs.reverse.findIdx? (fun c => c == '.') with
  | none => ""
  | some j =>
    let i := cs.length - 1 - j
    if 0 < i ∧ i < cs.length - 1 then String.mk (cs.drop i) else ""

instance instDecEqExcept {ε α : Type} [DecidableEq ε] [DecidableEq α] :
    DecidableEq (Except ε α) := fun a b =>
  match a, b with
  | Except.error x, Except.error y =>
    if h : x = y then isTrue (by rw [h])
    else isFalse (fun hc => by cases hc; exact h rfl)
  | Except.error _, Except.ok _ => isFalse (fun hc => by cases hc)
  | Except.ok _, Except.error _ => isFalse (fun hc => by cases hc)
  | Except.ok x, Except.ok y =>
    if h : x = y then isTrue (by rw [h])
    else isFalse (fun hc => by cases hc; exact h rfl)

/-- One entry yielded by `iterate_archive_contents`: its file name, whether
its bytes parse as JSON (only consulted for `.metadata.json`), and the
outcome the external VLM adapter would produce for it (only consulted for
image entries; `Except.error` models a raised exception of
`get_vlm_prediction`). -/
structure ArchiveFile where
  name : String
  contentValidJson : Bool
  vlm : Except String String
deriving DecidableEq

/-- The image extensions accepted by the loop. -/
def imageSuffixes : List String := [".jpeg", ".jpg", ".png", ".gif"]

/-- An entry that reaches the VLM branch of the loop: not the reserved
metadata name and carrying a recognized image extension. -/
def isImageEntry (f : ArchiveFile) : Bool :=
  f.name != ".metadata.json" && imageSuffixes.contains (pathSuffix f.name)

/-- Number of image entries in an archive. -/
def countImages (archive : List ArchiveFile) : Nat :=
  (archive.filter isImageEntry).length

/-- A `.metadata.json` entry whose contents do not parse: `json.load`
raises outside any try block. -/
def isBadMeta (f : ArchiveFile) : Bool :=
  f.name == ".metadata.json" && !f.contentValidJson

/-- Mutable state of the `while looping` loop: the (in-place mutated)
`scene_list`, the `scene_count` counter, and the histories of
`update_progress` and `update_status` calls. -/
structure LoopState where
  sceneList : List SceneRecord
  sceneCount : Nat
  progressLog : List ℚ
  statusLog : List String
deriving DecidableEq

/-- One iteration of the `while looping` body for the entry `f`.
`nScenes` is `len(scene_list)`.  The second component is `some e` when an
uncaught exception `e` escapes the iteration (malformed `.metadata.json`,
or the `ZeroDivisionError` of `scene_count/len(scene_list)` when
`scene_list` is empty); the VLM call sits inside a try block, so its
failure only logs a status. -/
def processEntry (colName : String) (nScenes : Nat) (st : LoopState)
    (f : ArchiveFile) : LoopState × Option String :=
  if f.name == ".metadata.json" then
    if f.contentValidJson then (st, none) else (st, some "JSONDecodeError")
  else if !(imageSuffixes.contains (pathSuffix f.name)) then (st, none)
  else
    let cnt := st.sceneCount + 1
    let st1 := { st with
        sceneCount := cnt,
        statusLog := st.statusLog ++
          [f.name ++ " read by VLM (" ++ toString cnt ++ "/" ++
           toString nScenes ++ ")"] }
    if nScenes = 0 then (st1, some "ZeroDivisionError")
    else
      let st2 := { st1 with
        progressLog := st1.progressLog ++ [(cnt : ℚ) / (nScenes : ℚ)],
        statusLog := st1.statusLog ++
          ["Predicting scene annotation for " ++ f.name] }
      match f.vlm with
      | Except.error e =>
        ({ st2 with statusLog := st2.statusLog ++
            ["Error in VLM prediction: " ++ e] }, none)
      | Except.ok pred =>
        let res := matchScenes colName f.name pred st2.sceneList
        let st3 := { st2 with sceneList := res.1 }
        if res.2 then (st3, none)
        else ({ st3 with statusLog := st3.statusLog ++
            ["No match found for " ++ f.name] }, none)

/-- The `while looping` loop over the whole archive; stops early when an
iteration raises. -/
def vlmLoop (colName : String) (nScenes : Nat) :
    List ArchiveFile → LoopState → LoopState × Option String
  | [], st => (st, none)
  | f :: rest, st =>
    match processEntry colName nScenes st f with
    | (st', none) => vlmLoop colName nScenes rest st'
    | (st', some e) => (st', some e)

/-- Terminal outcome of `VlmSceneAnnotation.process` (after the scene
dataset has been located): csv written, `finish_with_error`, or an
uncaught exception. -/
inductive MatchOutcome where
  | finished : List SceneRecord → MatchOutcome
  | error : String → MatchOutcome
  | exception : String → MatchOutcome
deriving DecidableEq

/-- `VlmSceneAnnotation.process` from the point where `scene_list` has been
loaded: run the archive loop, then check `if not scene_list` (the scene
record list, whose length the loop never changes) and either fail with
"No files found in archive" or write the scene list.  Also returns the
history of reported progress fractions. -/
def vlmProcess (colName : String) (scenes : List SceneRecord)
    (archive : List ArchiveFile) : MatchOutcome × List ℚ :=
  let st0 : LoopState := ⟨scenes, 0, [], []⟩
  match vlmLoop colName scenes.length archive st0 with
  | (st, some e) => (MatchOutcome.exception e, st.progressLog)
  | (st, none) =>
    if st.sceneList.isEmpty then
      (MatchOutcome.error "No files found in archive", st.progressLog)
    else (MatchOutcome.finished st.sceneList, st.progressLog)

/-! ## Specification-side notions used to state the claims -/

/-- Append a grouping key if it has not been seen yet. -/
def insertKey (ids : List String) (u : String) : List String :=
  if u ∈ ids then ids else ids ++ [u]

/-- Keys seen after consuming a stream, starting from `ids`. -/
def keysAfter (ids : List String) (l : List ShotRecord) : List String :=
  l.foldl (fun a s => insertKey a s.url) ids

/-- The distinct video ids of a shot stream, in order of first
occurrence. -/
def distinctKeys (l : List ShotRecord) : List String := keysAfter [] l

/-- An aggregate is correctly seeded from the first record of its id in
`pre` and carries exactly the durations of all records of its id, in
stream order. -/
def SeedOK (pre : List ShotRecord) (v : VideoMeta) : Prop :=
  ∃ s, pre.find? (fun r => r.url == v.id) = some s ∧
    v.frame_rate = s.start_fps ∧ v.shot_count = s.num_scenes_detected ∧
    v.total_duration = s.total_video_duration ∧
    v.shot_duration_list = (pre.filter (fun r => r.url == v.id)).map shotDur

/-- Invariant of the aggregation loop after consuming the prefix `pre`:
one aggregate per distinct id, in order of first occurrence, each seeded
from its first record. -/
def AggInv (pre : List ShotRecord) (acc : List VideoMeta) : Prop :=
  acc.map (fun v => v.id) = distinctKeys pre ∧ ∀ v ∈ acc, SeedOK pre v

/-! ## Aggregator lemmas -/

lemma mem_insertKey {ids : List String} {v u : String} :
    u ∈ insertKey ids v ↔ u ∈ ids ∨ u = v := by
  unfold insertKey
  by_cases h : v ∈ ids
  · rw [if_pos h]
    constructor
    · exact Or.inl
    · rintro (hu | rfl)
      · exact hu
      · exact h
  · rw [if_neg h]
    simp [List.mem_append]

lemma keysAfter_cons {ids : List String} {s : ShotRecord} {l : List ShotRecord} :
    keysAfter ids (s :: l) = keysAfter (insertKey ids s.url) l := rfl

lemma mem_keysAfter :
    ∀ (l : List ShotRecord) (ids : List String) (u : String),
      u ∈ keysAfter ids l ↔ u ∈ ids ∨ ∃ s ∈ l, s.url = u := by
  intro l
  induction l with
  | nil => intro ids u; simp [keysAfter]
  | cons s rest ih =>
    intro ids u
    rw [keysAfter_cons, ih, mem_insertKey]
    constructor
    · rintro ((h | h) | ⟨r, hr, hu⟩)
      · exact Or.inl h
      · exact Or.inr ⟨s, List.mem_cons_self s rest, h.symm⟩
      · exact Or.inr ⟨r, List.mem_cons_of_mem s hr, hu⟩
    · rintro (h | ⟨r, hr, hu⟩)
      · exact Or.inl (Or.inl h)
      · rcases List.mem_cons.mp hr with rfl | hr'
        · exact Or.inl (Or.inr hu.symm)
        · exact Or.inr ⟨r, hr', hu⟩

lemma mem_distinctKeys {l : List ShotRecord} {u : String} :
    u ∈ distinctKeys l ↔ ∃ s ∈ l, s.url = u := by
  unfold distinctKeys
  rw [mem_keysAfter]
  simp

lemma nodup_keysAfter :
    ∀ (l : List ShotRecord) (ids : List String), ids.Nodup → (keysAfter ids l).Nodup := by
  intro l
  induction l with
  | nil => intro ids h; exact h
  | cons s rest ih =>
    intro ids h
    rw [keysAfter_cons]
    apply ih
    unfold insertKey
    by_cases hm : s.url ∈ ids
    · rw [if_pos hm]; exact h
    · rw [if_neg hm, List.nodup_append]
      refine ⟨h, List.nodup_singleton _, fun a ha hb => ?_⟩
      rw [List.mem_singleton] at hb
      subst hb
      exact hm ha

lemma nodup_distinctKeys (l : List ShotRecord) : (distinctKeys l).Nodup :=
  nodup_keysAfter l [] List.nodup_nil

lemma distinctKeys_append_one (pre : List ShotRecord) (s : ShotRecord) :
    distinctKeys (pre ++ [s]) = insertKey (distinctKeys pre) s.url := by
  unfold distinctKeys keysAfter
  rw [List.foldl_append]
  rfl

lemma seedOK_extend_ne {pre : List ShotRecord} {v : VideoMeta} {s : ShotRecord}
    (h : SeedOK pre v) (hne : v.id ≠ s.url) : SeedOK (pre ++ [s]) v := by
  obtain ⟨s₀, hfind, h1, h2, h3, h4⟩ := h
  have hb : (s.url == v.id) = false := beq_eq_false_iff_ne.mpr (Ne.symm hne)
  refine ⟨s₀, ?_, h1, h2, h3, ?_⟩
  · rw [List.find?_append, hfind]; rfl
  · rw [List.filter_append, List.filter_singleton, hb, Bool.cond_false,
      List.append_nil]
    exact h4

lemma seedOK_extend_eq {pre : List ShotRecord} {v : VideoMeta} {s : ShotRecord}
    (h : SeedOK pre v) (heq : v.id = s.url) :
    SeedOK (pre ++ [s])
      { v with shot_duration_list := v.shot_duration_list ++ [shotDur s] } := by
  obtain ⟨s₀, hfind, h1, h2, h3, h4⟩ := h
  have hb : (s.url == v.id) = true := beq_iff_eq.mpr heq.symm
  refine ⟨s₀, ?_, h1, h2, h3, ?_⟩
  · show (pre ++ [s]).find? (fun r => r.url == v.id) = some s₀
    rw [List.find?_append, hfind]; rfl
  · show v.shot_duration_list ++ [shotDur s] =
      ((pre ++ [s]).filter (fun r => r.url == v.id)).map shotDur
    rw [List.filter_append, List.filter_singleton, hb, Bool.cond_true,
      List.map_append, ← h4]
    rfl

lemma processShot_exist {acc : List VideoMeta} {s : ShotRecord}
    (hex : acc.any (fun v => v.id == s.url) = true) :
    processShot acc s = acc.map (fun v =>
      if v.id == s.url then
        { v with shot_duration_list := v.shot_duration_list ++ [shotDur s] }
      else v) := by
  simp [processShot, hex]

lemma processShot_new {acc : List VideoMeta} {s : ShotRecord}
    (hex : acc.any (fun v => v.id == s.url) = false) :
    processShot acc s = acc ++ [{ id := s.url,
                                  frame_rate := s.start_fps,
                                  shot_count := s.num_scenes_detected,
                                  total_duration := s.total_video_duration,
                                  shot_duration_list := [shotDur s] }] := by
  have hc : ∀ v ∈ acc, (v.id == s.url) = false := by
    intro v hv
    cases hcv : (v.id == s.url) with
    | false => rfl
    | true =>
      have : acc.any (fun v => v.id == s.url) = true :=
        List.any_eq_true.mpr ⟨v, hv, hcv⟩
      rw [this] at hex
      exact Bool.noConfusion hex
  have hmapid : acc.map (fun v => if v.id = s.url then
      { v with shot_duration_list := v.shot_duration_list ++ [shotDur s] }
      else v) = acc := by
    have h := List.map_congr_left (l := acc)
      (f := fun v => if v.id = s.url then
        { v with shot_duration_list := v.shot_duration_list ++ [shotDur s] }
        else v)
      (g := id) (fun v hv => by simp [beq_eq_false_iff_ne.mp (hc v hv)])
    rw [h, List.map_id]
  simp [processShot, hex, hmapid]

lemma aggInv_step {pre : List ShotRecord} {acc : List VideoMeta} (s : ShotRecord)
    (h : AggInv pre acc) : AggInv (pre ++ [s]) (processShot acc s) := by
  obtain ⟨hids, hseed⟩ := h
  by_cases hex : acc.any (fun v => v.id == s.url) = true
  · have hmem : s.url ∈ distinctKeys pre := by
      rw [← hids]
      obtain ⟨v, hv, hbeq⟩ := List.any_eq_true.mp hex
      exact List.mem_map.mpr ⟨v, hv, beq_iff_eq.mp hbeq⟩
    constructor
    · have h1 : (acc.map (fun v => if v.id == s.url then
          { v with shot_duration_list := v.shot_duration_list ++ [shotDur s] }
          else v)).map (fun v => v.id) = acc.map (fun v => v.id) := by
        rw [List.map_map]
        apply List.map_congr_left
        intro v hv
        by_cases hcv : (v.id == s.url) = true
        · simp [beq_iff_eq.mp hcv]
        · have hne : v.id ≠ s.url := fun heq => hcv (beq_iff_eq.mpr heq)
          simp [hne]
      rw [processShot_exist hex, h1, hids, distinctKeys_append_one,
        insertKey, if_pos hmem]
    · intro v' hv'
      rw [processShot_exist hex] at hv'
      obtain ⟨v, hv, rfl⟩ := List.mem_map.mp hv'
      by_cases hcv : (v.id == s.url) = true
      · rw [if_pos hcv]
        exact seedOK_extend_eq (hseed v hv) (beq_iff_eq.mp hcv)
      · rw [if_neg hcv]
        exact seedOK_extend_ne (hseed v hv) (fun heq => hcv (beq_iff_eq.mpr heq))
  · have hexf : acc.any (fun v => v.id == s.url) = false := by
      cases hb : acc.any (fun v => v.id == s.url) with
      | false => rfl
      | true => exact absurd hb hex
    have hnotmem : s.url ∉ distinctKeys pre := by
      rw [← hids]
      intro hm
      obtain ⟨v, hv, hid⟩ := List.mem_map.mp hm
      exact hex (List.any_eq_true.mpr ⟨v, hv, beq_iff_eq.mpr hid⟩)
    constructor
    · rw [processShot_new hexf, List.map_append, hids, distinctKeys_append_one,
        insertKey, if_neg hnotmem]
      rfl
    · intro v hv
      rw [processShot_new hexf, List.mem_append] at hv
      rcases hv with hv | hv
      · refine seedOK_extend_ne (hseed v hv) ?_
        intro heq
        exact hex (List.any_eq_true.mpr ⟨v, hv, beq_iff_eq.mpr heq⟩)
      · rw [List.mem_singleton] at hv
        subst hv
        have hnone : pre.find? (fun r => r.url == s.url) = none := by
          rw [List.find?_eq_none]
          intro r hr hbeq
          exact hnotmem (mem_distinctKeys.mpr ⟨r, hr, beq_iff_eq.mp hbeq⟩)
        have hfil : pre.filter (fun r => r.url == s.url) = [] := by
          rw [List.filter_eq_nil_iff]
          intro r hr hbeq
          exact hnotmem (mem_distinctKeys.mpr ⟨r, hr, beq_iff_eq.mp hbeq⟩)
        refine ⟨s, ?_, rfl, rfl, rfl, ?_⟩
        · show (pre ++ [s]).find? (fun r => r.url == s.url) = some s
          rw [List.find?_append, hnone]
          simp
        · show [shotDur s] = ((pre ++ [s]).filter (fun r => r.url == s.url)).map shotDur
          rw [List.filter_append, hfil, List.filter_singleton]
          simp

lemma aggInv_fold :
    ∀ (l pre : List ShotRecord) (acc : List VideoMeta),
      AggInv pre acc → AggInv (pre ++ l) (l.foldl processShot acc) := by
  intro l
  induction l with
  | nil =>
    intro pre acc h
    simpa using h
  | cons s rest ih =>
    intro pre acc h
    have h2 := ih (pre ++ [s]) (processShot acc s) (aggInv_step s h)
    simpa [List.append_assoc] using h2

lemma aggInv_nil : AggInv [] [] := ⟨rfl, fun v hv => absurd hv (List.not_mem_nil v)⟩

lemma aggregateShots_inv (stream : List ShotRecord) :
    AggInv stream (aggregateShots stream) := by
  have h := aggInv_fold stream [] [] aggInv_nil
  simpa [aggregateShots] using h

/-! ## Statistics lemmas -/

lemma computeStats_eq (v : VideoMeta) :
    computeStats v =
      if (v.shot_count : ℚ) = 0 ∨ v.total_duration / 60 = 0 then
        Except.error "ZeroDivisionError"
      else
        Except.ok { toVideoMeta := v,
                    asl := v.total_duration / (v.shot_count : ℚ),
                    msl := npMedian v.shot_duration_list,
                    cuts_per_min :=
                      ((v.shot_count : ℚ) - 1) / (v.total_duration / 60) } := by
  unfold computeStats pyDiv
  by_cases h1 : ((v.shot_count : ℚ)) = 0
  · simp [h1]
  · by_cases h2 : v.total_duration / 60 = 0
    · simp [h1, h2]
    · simp [h1, h2]

lemma computeStats_ok_toMeta {v : VideoMeta} {r : VideoStats}
    (h : computeStats v = Except.ok r) : r.toVideoMeta = v := by
  rw [computeStats_eq] at h
  by_cases hc : (v.shot_count : ℚ) = 0 ∨ v.total_duration / 60 = 0
  · rw [if_pos hc] at h
    exact Except.noConfusion h
  · rw [if_neg hc] at h
    injection h with h'
    rw [← h']

lemma computeAllStats_error {vms : List VideoMeta} {v : VideoMeta}
    (hv : v ∈ vms) (h : (v.shot_count : ℚ) = 0 ∨ v.total_duration / 60 = 0) :
    computeAllStats vms = Except.error "ZeroDivisionError" := by
  induction vms with
  | nil => cases hv
  | cons w rest ih =>
    unfold computeAllStats
    rcases List.mem_cons.mp hv with rfl | hv'
    · rw [computeStats_eq, if_pos h]
    · rw [computeStats_eq]
      by_cases hw : (w.shot_count : ℚ) = 0 ∨ w.total_duration / 60 = 0
      · rw [if_pos hw]
      · rw [if_neg hw, ih hv']

lemma computeAllStats_ok_meta :
    ∀ {vms : List VideoMeta} {sts : List VideoStats},
      computeAllStats vms = Except.ok sts →
      sts.map (fun r => r.toVideoMeta) = vms := by
  intro vms
  induction vms with
  | nil =>
    intro sts h
    unfold computeAllStats at h
    injection h with h'
    rw [← h']
    rfl
  | cons v rest ih =>
    intro sts h
    unfold computeAllStats at h
    cases hcs : computeStats v with
    | error e => rw [hcs] at h; exact Except.noConfusion h
    | ok r =>
      rw [hcs] at h
      cases hca : computeAllStats rest with
      | error e => rw [hca] at h; exact Except.noConfusion h
      | ok rs =>
        rw [hca] at h
        injection h with h'
        rw [← h', List.map_cons, computeStats_ok_toMeta hcs, ih hca]

lemma computeAllStats_ok_ids {vms : List VideoMeta} {sts : List VideoStats}
    (h : computeAllStats vms = Except.ok sts) :
    sts.map (fun r => r.id) = vms.map (fun v => v.id) := by
  have hm := computeAllStats_ok_meta h
  calc sts.map (fun r => r.id)
      = (sts.map (fun r => r.toVideoMeta)).map (fun v => v.id) := by
        rw [List.map_map]; rfl
    _ = vms.map (fun v => v.id) := by rw [hm]

lemma npMedian_eq_medianSpec (l : List ℚ) : npMedian l = medianSpec l := by
  simp only [npMedian, medianSpec]
  by_cases h : l.length % 2 = 1
  · rw [if_pos h]
    have he : (l.length - 1) / 2 = l.length / 2 := by omega
    rw [he]
    ring
  · rw [if_neg h]
    have he : (l.length - 1) / 2 = l.length / 2 - 1 := by omega
    rw [he]

/-! ## Merge lemmas -/

lemma filter_eq_find_of_nodup :
    ∀ (metas : List VideoStats) (x : String),
      (metas.map (fun m => m.id)).Nodup →
      metas.filter (fun m => m.id == x) =
        (match metas.find? (fun m => m.id == x) with
         | some m => [m]
         | none => []) := by
  intro metas
  induction metas with
  | nil => intro x h; rfl
  | cons m rest ih =>
    intro x h
    rw [List.map_cons, List.nodup_cons] at h
    obtain ⟨hm, hrest⟩ := h
    by_cases hc : (m.id == x) = true
    · rw [List.filter_cons_of_pos (p := fun m : VideoStats => m.id == x) hc,
        List.find?_cons_of_pos (p := fun m : VideoStats => m.id == x) rest hc]
      have hnil : rest.filter (fun r => r.id == x) = [] := by
        rw [List.filter_eq_nil_iff]
        intro r hr hbeq
        have hx := beq_iff_eq.mp hbeq
        have hmx := beq_iff_eq.mp hc
        exact hm (List.mem_map.mpr ⟨r, hr, by rw [hx, hmx]⟩)
      rw [hnil]
    · rw [List.filter_cons_of_neg (p := fun m : VideoStats => m.id == x) hc,
        List.find?_cons_of_neg (p := fun m : VideoStats => m.id == x) rest hc]
      exact ih x hrest

lemma leftJoin_eq_map {parents : List ParentRow} {metas : List VideoStats}
    (h : (metas.map (fun m => m.id)).Nodup) :
    leftJoin parents metas =
      parents.map (fun p =>
        P1Row.merged p (metas.find? (fun m => m.id == p.id))) := by
  induction parents with
  | nil => rfl
  | cons p rest ih =>
    unfold leftJoin
    rw [filter_eq_find_of_nodup metas p.id h]
    cases hf : metas.find? (fun m => m.id == p.id) with
    | none => simp [hf, ih]
    | some m => simp [hf, ih]

lemma videoSceneProcess_zero (stream : List ShotRecord) (parent : List ParentRow)
    (b : Bool) : videoSceneProcess 0 stream parent b = P1Outcome.finishedEmpty := rfl

lemma videoSceneProcess_pos {numRows : Nat} (h : numRows ≠ 0)
    (stream : List ShotRecord) (parent : List ParentRow) (b : Bool) :
    videoSceneProcess numRows stream parent b =
      (match computeAllStats (aggregateShots stream) with
       | Except.error e => P1Outcome.exception e
       | Except.ok stats =>
         if !stats.isEmpty then
           if b then P1Outcome.finished (leftJoin parent stats)
           else P1Outcome.finished (stats.map P1Row.standalone)
         else P1Outcome.error "Unable to translate video metadata. Error encountered") := by
  unfold videoSceneProcess
  rw [if_neg h]

/-! ## Matcher lemmas -/

lemma matchScenes_flag :
    ∀ (scenes : List SceneRecord) (colName fileName pred : String),
      (matchScenes colName fileName pred scenes).2 =
        scenes.any (fun r => targetName r.id == fileName) := by
  intro scenes
  induction scenes with
  | nil => intro c f p; rfl
  | cons r rest ih =>
    intro c f p
    unfold matchScenes
    rw [List.any_cons]
    by_cases hc : (targetName r.id == f) = true
    · rw [if_pos hc, hc, Bool.true_or]
    · have hcf : (targetName r.id == f) = false := by
        cases hb : (targetName r.id == f) with
        | false => rfl
        | true => exact absurd hb hc
      rw [if_neg hc, hcf, Bool.false_or]
      exact ih c f p

lemma matchScenes_no_match :
    ∀ (scenes : List SceneRecord) (colName fileName pred : String),
      scenes.any (fun r => targetName r.id == fileName) = false →
      (matchScenes colName fileName pred scenes).1 = scenes := by
  intro scenes
  induction scenes with
  | nil => intro c f p h; rfl
  | cons r rest ih =>
    intro c f p h
    rw [List.any_cons, Bool.or_eq_false_iff] at h
    obtain ⟨h1, h2⟩ := h
    unfold matchScenes
    rw [if_neg (by rw [h1]; exact Bool.noConfusion)]
    simp only []
    rw [ih c f p h2]

lemma matchScenes_first :
    ∀ (scenes : List SceneRecord) (colName fileName pred : String)
      (i : Nat) (hi : i < scenes.length),
      targetName (scenes.get ⟨i, hi⟩).id = fileName →
      (∀ j (hj : j < scenes.length), j < i →
        targetName (scenes.get ⟨j, hj⟩).id ≠ fileName) →
      (matchScenes colName fileName pred scenes).1 =
        scenes.set i (setField (scenes.get ⟨i, hi⟩) colName pred) := by
  intro scenes
  induction scenes with
  | nil =>
    intro c f p i hi
    exact absurd hi (Nat.not_lt_zero i)
  | cons r rest ih =>
    intro c f p i hi hmatch hbefore
    cases i with
    | zero =>
      have hc : (targetName r.id == f) = true := beq_iff_eq.mpr hmatch
      unfold matchScenes
      rw [if_pos hc]
      rfl
    | succ i' =>
      have hr : targetName r.id ≠ f :=
        hbefore 0 (Nat.succ_pos rest.length) (Nat.succ_pos i')
      have hc : ¬((targetName r.id == f) = true) := fun hb => hr (beq_iff_eq.mp hb)
      unfold matchScenes
      rw [if_neg hc]
      simp only []
      have hi' : i' < rest.length := Nat.lt_of_succ_lt_succ hi
      rw [ih c f p i' hi' hmatch
        (fun j hj hji => hbefore (j + 1) (Nat.succ_lt_succ hj) (Nat.succ_lt_succ hji))]
      rfl

lemma processEntry_not_image {colName : String} {n : Nat} {st : LoopState}
    {f : ArchiveFile} (h : isImageEntry f = false) :
    (processEntry colName n st f).1 = st := by
  unfold isImageEntry at h
  by_cases h1 : (f.name == ".metadata.json") = true
  · by_cases h2 : f.contentValidJson = true <;>
      simp [processEntry, h1, h2]
  · have h1f : (f.name == ".metadata.json") = false := by
      cases hb : (f.name == ".metadata.json") with
      | false => rfl
      | true => exact absurd hb h1
    simp only [bne, h1f, Bool.not_false, Bool.true_and] at h
    have hnotmem : pathSuffix f.name ∉ imageSuffixes := by simpa using h
    simp [processEntry, h1f, h, hnotmem]

lemma processEntry_image {colName : String} {n : Nat} {st : LoopState}
    {f : ArchiveFile} (h : isImageEntry f = true) (hn : n ≠ 0) :
    (processEntry colName n st f).1.sceneCount = st.sceneCount + 1 ∧
    (processEntry colName n st f).1.progressLog =
      st.progressLog ++ [((st.sceneCount + 1 : Nat) : ℚ) / (n : ℚ)] ∧
    (processEntry colName n st f).2 = none := by
  unfold isImageEntry at h
  rw [Bool.and_eq_true] at h
  obtain ⟨h1, h2⟩ := h
  have h1f : (f.name == ".metadata.json") = false := by
    simp only [bne] at h1
    cases hb : (f.name == ".metadata.json") with
    | false => rfl
    | true => rw [hb] at h1; exact Bool.noConfusion h1
  have hmem : pathSuffix f.name ∈ imageSuffixes := by simpa using h2
  cases hv : f.vlm with
  | error e => simp [processEntry, h1f, h2, hmem, hn, hv]
  | ok pred =>
    by_cases hm : (matchScenes colName f.name pred st.sceneList).2 = true
    · simp [processEntry, h1f, h2, hmem, hn, hv, hm]
    · have hmf : (matchScenes colName f.name pred st.sceneList).2 = false := by
        cases hb : (matchScenes colName f.name pred st.sceneList).2 with
        | false => rfl
        | true => exact absurd hb hm
      simp [processEntry, h1f, h2, hmem, hn, hv, hmf]

lemma countImages_cons_image {f : ArchiveFile} {rest : List ArchiveFile}
    (h : isImageEntry f = true) :
    countImages (f :: rest) = countImages rest + 1 := by
  unfold countImages
  rw [List.filter_cons_of_pos h]
  rfl

lemma countImages_cons_other {f : ArchiveFile} {rest : List ArchiveFile}
    (h : isImageEntry f = false) :
    countImages (f :: rest) = countImages rest := by
  unfold countImages
  rw [List.filter_cons_of_neg (by rw [h]; exact Bool.noConfusion)]

lemma vlmLoop_cons (colName : String) (n : Nat) (f : ArchiveFile)
    (rest : List ArchiveFile) (st : LoopState) :
    vlmLoop colName n (f :: rest) st =
      (match processEntry colName n st f with
       | (st', none) => vlmLoop colName n rest st'
       | (st', some e) => (st', some e)) := rfl

lemma vlmLoop_progress :
    ∀ (files : List ArchiveFile) (st : LoopState) (colName : String) (n : Nat),
      st.sceneCount + countImages files ≤ n →
      (∀ p ∈ st.progressLog, 0 ≤ p ∧ p ≤ 1) →
      ∀ p ∈ (vlmLoop colName n files st).1.progressLog, 0 ≤ p ∧ p ≤ 1 := by
  intro files
  induction files with
  | nil => intro st c n hle hlog p hp; exact hlog p hp
  | cons f rest ih =>
    intro st c n hle hlog p hp
    by_cases hf : isImageEntry f = true
    · rw [countImages_cons_image hf] at hle
      have hn : n ≠ 0 := by omega
      obtain ⟨hc1, hc2, hc3⟩ := @processEntry_image c n st f hf hn
      have hpair : processEntry c n st f = ((processEntry c n st f).1, none) := by
        have h0 := (Prod.mk.eta (p := processEntry c n st f)).symm
        rw [hc3] at h0
        exact h0
      rw [vlmLoop_cons, hpair] at hp
      refine ih (processEntry c n st f).1 c n ?_ ?_ p hp
      · rw [hc1]; omega
      · intro q hq
        rw [hc2] at hq
        rcases List.mem_append.mp hq with hq | hq
        · exact hlog q hq
        · rw [List.mem_singleton] at hq
          subst hq
          have hnpos : 0 < (n : ℚ) := by
            exact_mod_cast Nat.pos_of_ne_zero hn
          constructor
          · apply div_nonneg
            · positivity
            · exact le_of_lt hnpos
          · rw [div_le_one hnpos]
            exact_mod_cast (by omega : st.sceneCount + 1 ≤ n)
    · have hf' : isImageEntry f = false := by
        cases hb : isImageEntry f with
        | false => rfl
        | true => exact absurd hb hf
      rw [countImages_cons_other hf'] at hle
      have hst1 : (processEntry c n st f).1 = st := processEntry_not_image hf'
      cases ho : (processEntry c n st f).2 with
      | none =>
        have hpair : processEntry c n st f = (st, none) := by
          have h0 := (Prod.mk.eta (p := processEntry c n st f)).symm
          rw [hst1, ho] at h0
          exact h0
        rw [vlmLoop_cons, hpair] at hp
        exact ih st c n hle hlog p hp
      | some e =>
        have hpair : processEntry c n st f = (st, some e) := by
          have h0 := (Prod.mk.eta (p := processEntry c n st f)).symm
          rw [hst1, ho] at h0
          exact h0
        rw [vlmLoop_cons, hpair] at hp
        exact hlog p hp

lemma vlmProcess_progressLog (colName : String) (scenes : List SceneRecord)
    (archive : List ArchiveFile) :
    (vlmProcess colName scenes archive).2 =
      (vlmLoop colName scenes.length archive ⟨scenes, 0, [], []⟩).1.progressLog := by
  simp only [vlmProcess]
  rcases h : vlmLoop colName scenes.length archive ⟨scenes, 0, [], []⟩ with ⟨st, o⟩
  cases o with
  | none => by_cases he : st.sceneList.isEmpty = true <;> simp [he]
  | some e => rfl

lemma vlmLoop_bad :
    ∀ (files : List ArchiveFile) (st : LoopState) (colName : String) (n : Nat),
      files.any isBadMeta = true →
      ∃ e st', vlmLoop colName n files st = (st', some e) := by
  intro files
  induction files with
  | nil => intro st c n h; exact Bool.noConfusion h
  | cons f rest ih =>
    intro st c n h
    cases ho : (processEntry c n st f).2 with
    | some e =>
      refine ⟨e, (processEntry c n st f).1, ?_⟩
      have hpair : processEntry c n st f = ((processEntry c n st f).1, some e) := by
        have h0 := (Prod.mk.eta (p := processEntry c n st f)).symm
        rw [ho] at h0
        exact h0
      rw [vlmLoop_cons, hpair]
    | none =>
      have hfb : isBadMeta f = false := by
        cases hb : isBadMeta f with
        | false => rfl
        | true =>
          exfalso
          unfold isBadMeta at hb
          rw [Bool.and_eq_true] at hb
          obtain ⟨hb1, hb2⟩ := hb
          have hcv : f.contentValidJson = false := by
            cases hc : f.contentValidJson with
            | false => rfl
            | true => rw [hc] at hb2; exact Bool.noConfusion hb2
          have hsome : (processEntry c n st f).2 = some "JSONDecodeError" := by
            simp [processEntry, hb1, hcv]
          rw [hsome] at ho
          exact Option.noConfusion ho
      have hrest : rest.any isBadMeta = true := by
        rw [List.any_cons, hfb, Bool.false_or] at h
        exact h
      obtain ⟨e, st', hrec⟩ := ih (processEntry c n st f).1 c n hrest
      refine ⟨e, st', ?_⟩
      have hpair : processEntry c n st f = ((processEntry c n st f).1, none) := by
        have h0 := (Prod.mk.eta (p := processEntry c n st f)).symm
        rw [ho] at h0
        exact h0
      rw [vlmLoop_cons, hpair]
      exact hrec

/-! ## Claims -/

/-- Claim C1, counterexample: a single video whose seeded `shot_count` is
zero makes the whole run abort with an uncaught `ZeroDivisionError` — the
video is not excluded and the run does not continue, contrary to the
claim. -/
theorem C1_counterexample :
    videoSceneProcess 1 [⟨"v", 0, 10, 120, 30, 0⟩] [] true =
      P1Outcome.exception "ZeroDivisionError" ∧
    (P1Outcome.exception "ZeroDivisionError" ≠
      P1Outcome.finished []) := by
  constructor
  · with_unfolding_all rfl
  · intro h
    exact P1Outcome.noConfusion h

/-- Claim C1 as amended: a divide-by-zero in the statistics loop
(`shot_count == 0` for asl, or a zero total duration for cuts-per-minute)
raises an uncaught `ZeroDivisionError` that aborts the entire run with an
exception outcome; no per-video exclusion takes place. -/
theorem C1_amended :
    ∀ (numRows : Nat) (stream : List ShotRecord) (parent : List ParentRow)
      (b : Bool) (v : VideoMeta),
      numRows ≠ 0 → v ∈ aggregateShots stream →
      (v.shot_count = 0 ∨ v.total_duration = 0) →
      videoSceneProcess numRows stream parent b =
        P1Outcome.exception "ZeroDivisionError" := by
  intro numRows stream parent b v hn hv hz
  have hz' : (v.shot_count : ℚ) = 0 ∨ v.total_duration / 60 = 0 := by
    rcases hz with h | h
    · left; rw [h]; exact Int.cast_zero
    · right; rw [h]; exact zero_div 60
  rw [videoSceneProcess_pos hn, computeAllStats_error hv hz']

/-- Claim C1, witness for the amended theorem at a concrete run. -/
theorem C1_amended_witness :
    videoSceneProcess 1 [⟨"v", 0, 10, 120, 30, 0⟩] [⟨"p", []⟩] false =
      P1Outcome.exception "ZeroDivisionError" :=
  C1_amended 1 [⟨"v", 0, 10, 120, 30, 0⟩] [⟨"p", []⟩] false
    ⟨"v", 30, 0, 120, [10]⟩ (by decide)
    (by with_unfolding_all decide) (Or.inl rfl)

/-- Claim C2: the guard that produces "No files found in archive" tests the
scene-record list, not the archive.  An empty archive together with a
non-empty scene list finishes successfully, writing the unannotated scene
list; the error fires exactly when the scene list is empty, even for an
empty archive. -/
theorem C2_code_behavior :
    vlmProcess "annotation" [⟨"x", []⟩] [] =
      (MatchOutcome.finished [⟨"x", []⟩], []) ∧
    vlmProcess "annotation" [] [] =
      (MatchOutcome.error "No files found in archive", []) := by
  constructor
  · with_unfolding_all rfl
  · with_unfolding_all rfl

/-- Claim C3, counterexample: a shot whose end time precedes its start time
is not skipped — its negative duration is appended to the aggregate's
duration list. -/
theorem C3_counterexample :
    aggregateShots [⟨"v", 10, 7, 120, 30, 5⟩] = [⟨"v", 30, 5, 120, [-3]⟩] ∧
    shotDur ⟨"v", 10, 7, 120, 30, 5⟩ < 0 := by
  constructor
  · with_unfolding_all rfl
  · with_unfolding_all decide

/-- Claim C3 as amended: a shot with a negative duration (end before start)
is treated like any other shot — its duration is appended to the aggregate
of its video id (no skip, no warning, and the stream continues). -/
theorem C3_amended :
    ∀ (stream : List ShotRecord) (s : ShotRecord),
      s ∈ stream → shotDur s < 0 →
      ∃ v ∈ aggregateShots stream, v.id = s.url ∧
        shotDur s ∈ v.shot_duration_list := by
  intro stream s hs hneg
  obtain ⟨hids, hseed⟩ := aggregateShots_inv stream
  have hkey : s.url ∈ distinctKeys stream := mem_distinctKeys.mpr ⟨s, hs, rfl⟩
  rw [← hids] at hkey
  obtain ⟨v, hv, hid⟩ := List.mem_map.mp hkey
  refine ⟨v, hv, hid, ?_⟩
  obtain ⟨s₀, _, _, _, _, hlist⟩ := hseed v hv
  rw [hlist]
  refine List.mem_map.mpr ⟨s, ?_, rfl⟩
  rw [List.mem_filter]
  exact ⟨hs, beq_iff_eq.mpr hid.symm⟩

/-- Claim C3, witness for the amended theorem at a concrete stream. -/
theorem C3_amended_witness :
    ∃ v ∈ aggregateShots [⟨"v", 10, 7, 120, 30, 5⟩], v.id = "v" ∧
      shotDur ⟨"v", 10, 7, 120, 30, 5⟩ ∈ v.shot_duration_list :=
  C3_amended [⟨"v", 10, 7, 120, 30, 5⟩] ⟨"v", 10, 7, 120, 30, 5⟩
    (List.mem_singleton.mpr rfl) (by with_unfolding_all decide)

/-- Claim C4, counterexample: with an empty upstream dataset the stage
finishes with zero rows (`dataset.finish(0)`), a zero-row success — it does
not fail with the "nothing to output" error. -/
theorem C4_counterexample :
    videoSceneProcess 0 [] [] true = P1Outcome.finishedEmpty ∧
    (P1Outcome.finishedEmpty ≠
      P1Outcome.error "Unable to translate video metadata. Error encountered") := by
  constructor
  · rfl
  · intro h
    exact P1Outcome.noConfusion h

/-- Claim C4 as amended: when the source dataset reports zero rows the
stage finishes successfully with zero rows and no error; the
"Unable to translate video metadata. Error encountered" failure is reached
exactly when the source reports rows but zero aggregates exist at the
point of output. -/
theorem C4_amended :
    ∀ (numRows : Nat) (stream : List ShotRecord) (parent : List ParentRow)
      (b : Bool),
      (numRows = 0 →
        videoSceneProcess numRows stream parent b = P1Outcome.finishedEmpty) ∧
      (numRows ≠ 0 → aggregateShots stream = [] →
        videoSceneProcess numRows stream parent b =
          P1Outcome.error "Unable to translate video metadata. Error encountered") := by
  intro numRows stream parent b
  constructor
  · intro h0
    rw [h0]
    exact videoSceneProcess_zero stream parent b
  · intro hn hagg
    rw [videoSceneProcess_pos hn, hagg]
    rfl

/-- Claim C4, witness for the amended theorem at concrete runs. -/
theorem C4_amended_witness :
    videoSceneProcess 1 [] [] true =
      P1Outcome.error "Unable to translate video metadata. Error encountered" ∧
    videoSceneProcess 0 [] [] false = P1Outcome.finishedEmpty :=
  ⟨(C4_amended 1 [] [] true).2 (by decide) rfl,
   (C4_amended 0 [] [] false).1 rfl⟩

/-- Claim C5: for a video with positive shot count and positive total
duration in minutes, the statistics loop succeeds and computes
`asl = totalDuration / shotCount`, `msl` equal to the spec's standard
median of the duration list (middle element for odd length, mean of the
two middle elements after numeric sort), and
`cutsPerMin = (shotCount - 1) / (totalDuration in minutes)`. -/
theorem C5_stats_formulas :
    ∀ v : VideoMeta, 0 < v.shot_count → 0 < v.total_duration / 60 →
      ∃ r, computeStats v = Except.ok r ∧
        r.asl = v.total_duration / (v.shot_count : ℚ) ∧
        r.msl = medianSpec v.shot_duration_list ∧
        r.cuts_per_min = ((v.shot_count : ℚ) - 1) / (v.total_duration / 60) := by
  intro v h1 h2
  have hq1 : (v.shot_count : ℚ) ≠ 0 := by
    have : (0 : ℚ) < (v.shot_count : ℚ) := by exact_mod_cast h1
    exact ne_of_gt this
  have hq2 : v.total_duration / 60 ≠ 0 := ne_of_gt h2
  have hcond : ¬((v.shot_count : ℚ) = 0 ∨ v.total_duration / 60 = 0) := by
    rintro (h | h)
    · exact hq1 h
    · exact hq2 h
  refine ⟨{ toVideoMeta := v,
            asl := v.total_duration / (v.shot_count : ℚ),
            msl := npMedian v.shot_duration_list,
            cuts_per_min := ((v.shot_count : ℚ) - 1) / (v.total_duration / 60) },
          ?_, rfl, npMedian_eq_medianSpec v.shot_duration_list, rfl⟩
  rw [computeStats_eq, if_neg hcond]

/-- Claim C5, witness: the spec's worked example — durations
`[10s, 20s, 30s]`, total duration `120s`, shot count `3` give
`asl = 40`, `msl = 20`, `cutsPerMin = 1`. -/
theorem C5_witness :
    ∃ r, computeStats ⟨"v", 30, 3, 120, [10, 20, 30]⟩ = Except.ok r ∧
      r.asl = 40 ∧ r.msl = 20 ∧ r.cuts_per_min = 1 := by
  obtain ⟨r, hr, ha, hm, hc⟩ :=
    C5_stats_formulas ⟨"v", 30, 3, 120, [10, 20, 30]⟩ (by decide)
      (by with_unfolding_all decide)
  refine ⟨r, hr, ?_, ?_, ?_⟩
  · rw [ha]; with_unfolding_all decide
  · rw [hm]; with_unfolding_all decide
  · rw [hc]; with_unfolding_all decide

/-- Claim C6: the matcher computes each record's target filename by
removing every occurrence of the literal `.mp4` from the id and appending
`.jpeg`; the match flag is exact string equality against the entry's
filename; the first matching record gets the configured column set and the
scan stops there; when no record matches the scene list is left unchanged,
a non-fatal "No match found" status is reported and the run continues
(no exception), including the spec's example id. -/
theorem C6_matching :
    ∀ (colName fileName pred : String) (scenes : List SceneRecord),
      ((matchScenes colName fileName pred scenes).2 =
        scenes.any (fun r => targetName r.id == fileName)) ∧
      (scenes.any (fun r => targetName r.id == fileName) = false →
        (matchScenes colName fileName pred scenes).1 = scenes) ∧
      (∀ i (hi : i < scenes.length),
        targetName (scenes.get ⟨i, hi⟩).id = fileName →
        (∀ j (hj : j < scenes.length), j < i →
          targetName (scenes.get ⟨j, hj⟩).id ≠ fileName) →
        (matchScenes colName fileName pred scenes).1 =
          scenes.set i (setField (scenes.get ⟨i, hi⟩) colName pred)) ∧
      targetName "123.mp4_scene_1" = "123_scene_1.jpeg" ∧
      (∀ (n : Nat) (st : LoopState) (f : ArchiveFile),
        isImageEntry f = true → n ≠ 0 → f.vlm = Except.ok pred →
        st.sceneList.any (fun r => targetName r.id == f.name) = false →
        (processEntry colName n st f).2 = none ∧
        (processEntry colName n st f).1.sceneList = st.sceneList ∧
        (processEntry colName n st f).1.statusLog =
          st.statusLog ++
            [f.name ++ " read by VLM (" ++ toString (st.sceneCount + 1) ++
               "/" ++ toString n ++ ")",
             "Predicting scene annotation for " ++ f.name,
             "No match found for " ++ f.name]) := by
  intro colName fileName pred scenes
  refine ⟨matchScenes_flag scenes colName fileName pred,
          matchScenes_no_match scenes colName fileName pred,
          matchScenes_first scenes colName fileName pred,
          by with_unfolding_all decide, ?_⟩
  intro n st f hf hn hvlm hany
  unfold isImageEntry at hf
  rw [Bool.and_eq_true] at hf
  obtain ⟨h1, h2⟩ := hf
  have h1f : (f.name == ".metadata.json") = false := by
    simp only [bne] at h1
    cases hb : (f.name == ".metadata.json") with
    | false => rfl
    | true => rw [hb] at h1; exact Bool.noConfusion h1
  have hmem : pathSuffix f.name ∈ imageSuffixes := by simpa using h2
  have hflag : (matchScenes colName f.name pred st.sceneList).2 = false := by
    rw [matchScenes_flag]; exact hany
  have hlist : (matchScenes colName f.name pred st.sceneList).1 = st.sceneList :=
    matchScenes_no_match st.sceneList colName f.name pred hany
  refine ⟨?_, ?_, ?_⟩ <;>
    simp [processEntry, h1f, hmem, hn, hvlm, hflag, hlist]

/-- Claim C6, witness: the spec's example — scene id `"123.mp4_scene_1"`
matches archive file `"123_scene_1.jpeg"`, and the first (only) record
gets the configured column set to the prediction. -/
theorem C6_witness :
    (matchScenes "annotation" "123_scene_1.jpeg" "a cat"
        [⟨"123.mp4_scene_1", []⟩]).1 =
      [⟨"123.mp4_scene_1", [("annotation", "a cat")]⟩] := by
  have h := (C6_matching "annotation" "123_scene_1.jpeg" "a cat"
      [⟨"123.mp4_scene_1", []⟩]).2.2.1 0 (by decide)
    (by with_unfolding_all decide)
    (fun j hj hji => absurd hji (by omega))
  rw [h]
  with_unfolding_all rfl

/-- Claim C7: in merged mode the output is a left join of the statistics
table onto the parent table by id — every parent row is retained in order,
pairing each with the first (unique) matching aggregate or with nothing —
so the output row count equals the parent row count; in standalone mode
the output is one row per aggregate. -/
theorem C7_merge_modes :
    ∀ (numRows : Nat) (stream : List ShotRecord) (parent : List ParentRow)
      (stats : List VideoStats),
      numRows ≠ 0 → stream ≠ [] →
      computeAllStats (aggregateShots stream) = Except.ok stats →
      (videoSceneProcess numRows stream parent true =
        P1Outcome.finished (parent.map (fun p =>
          P1Row.merged p (stats.find? (fun m => m.id == p.id)))) ∧
      (leftJoin parent stats).length = parent.length ∧
      videoSceneProcess numRows stream parent false =
        P1Outcome.finished (stats.map P1Row.standalone) ∧
      (stats.map P1Row.standalone).length = stats.length) := by
  intro numRows stream parent stats hn hs hok
  have hids : stats.map (fun r => r.id) = distinctKeys stream := by
    rw [computeAllStats_ok_ids hok, (aggregateShots_inv stream).1]
  have hnodup : (stats.map (fun r => r.id)).Nodup := by
    rw [hids]; exact nodup_distinctKeys stream
  have hne : stats ≠ [] := by
    intro h0
    cases stream with
    | nil => exact hs rfl
    | cons s rest =>
      have hmem : s.url ∈ distinctKeys (s :: rest) :=
        mem_distinctKeys.mpr ⟨s, List.mem_cons_self s rest, rfl⟩
      rw [← hids, h0] at hmem
      cases hmem
  have hemp : stats.isEmpty = false := by
    rw [List.isEmpty_eq_false]; exact hne
  refine ⟨?_, ?_, ?_, ?_⟩
  · rw [videoSceneProcess_pos hn, hok]
    simp [hemp, leftJoin_eq_map hnodup]
  · rw [leftJoin_eq_map hnodup, List.length_map]
  · rw [videoSceneProcess_pos hn, hok]
    simp [hemp]
  · rw [List.length_map]

/-- Claim C7, witness: a concrete merged run with one aggregate and a
two-row parent table keeps both parent rows. -/
theorem C7_witness :
    (leftJoin [⟨"p1", []⟩, ⟨"a", []⟩]
      [⟨⟨"a", 30, 3, 120, [10]⟩, 40, 10, 1⟩]).length = 2 :=
  (C7_merge_modes 1 [⟨"a", 0, 10, 120, 30, 3⟩] [⟨"p1", []⟩, ⟨"a", []⟩]
    [⟨⟨"a", 30, 3, 120, [10]⟩, 40, 10, 1⟩] (by decide) (by decide)
    (by with_unfolding_all rfl)).2.1

/-- Claim C8: a stream spanning k distinct video ids produces exactly one
aggregate per distinct id (in order of first occurrence); each aggregate's
frame rate, shot count and total duration are seeded from the first record
of its id as found in the stream and never recomputed, and its duration
list is exactly the durations of all records of that id in stream order. -/
theorem C8_aggregation :
    ∀ stream : List ShotRecord,
      ((aggregateShots stream).map (fun v => v.id) = distinctKeys stream) ∧
      (distinctKeys stream).Nodup ∧
      (∀ u, u ∈ distinctKeys stream ↔ ∃ s ∈ stream, s.url = u) ∧
      ∀ v ∈ aggregateShots stream, ∃ s,
        stream.find? (fun r => r.url == v.id) = some s ∧
        v.frame_rate = s.start_fps ∧
        v.shot_count = s.num_scenes_detected ∧
        v.total_duration = s.total_video_duration ∧
        v.shot_duration_list =
          (stream.filter (fun r => r.url == v.id)).map shotDur := by
  intro stream
  obtain ⟨hids, hseed⟩ := aggregateShots_inv stream
  exact ⟨hids, nodup_distinctKeys stream, fun u => mem_distinctKeys,
    fun v hv => hseed v hv⟩

/-- Claim C8, witness: in a three-shot stream over ids "a", "b", "a" the
aggregate for "a" is seeded from the first "a" record and collects both
"a" durations. -/
theorem C8_witness :
    ∃ s, [(⟨"a", 0, 10, 100, 30, 4⟩ : ShotRecord), ⟨"b", 0, 5, 50, 25, 2⟩,
          ⟨"a", 10, 15, 100, 30, 4⟩].find? (fun r => r.url == "a") = some s ∧
      (30 : ℚ) = s.start_fps ∧
      (4 : Int) = s.num_scenes_detected ∧
      (100 : ℚ) = s.total_video_duration ∧
      [(10 : ℚ), 5] =
        ([(⟨"a", 0, 10, 100, 30, 4⟩ : ShotRecord), ⟨"b", 0, 5, 50, 25, 2⟩,
          ⟨"a", 10, 15, 100, 30, 4⟩].filter
            (fun r => r.url == "a")).map shotDur :=
  (C8_aggregation [⟨"a", 0, 10, 100, 30, 4⟩, ⟨"b", 0, 5, 50, 25, 2⟩,
      ⟨"a", 10, 15, 100, 30, 4⟩]).2.2.2
    ⟨"a", 30, 4, 100, [10, 5]⟩ (by with_unfolding_all decide)

/-- Claim C9, counterexample: with one scene record and two image entries
the second reported progress value is `2`, outside `[0,1]`, for a
non-empty scene-record collection. -/
theorem C9_counterexample :
    (vlmProcess "annotation" [⟨"123.mp4_scene_1", []⟩]
      [⟨"a.jpeg", true, Except.ok "x"⟩, ⟨"b.jpeg", true, Except.ok "x"⟩]).2 =
      [1, 2] ∧ ¬((2 : ℚ) ≤ 1) := by
  constructor
  · with_unfolding_all rfl
  · with_unfolding_all decide

/-- Claim C9 as amended: every reported progress value equals
`processedImages / sceneCount` and lies in `[0,1]` provided the archive
contains at most as many image entries as there are scene records; with
more image entries than scene records the reported value exceeds 1. -/
theorem C9_amended :
    ∀ (colName : String) (scenes : List SceneRecord)
      (archive : List ArchiveFile),
      countImages archive ≤ scenes.length →
      ∀ p ∈ (vlmProcess colName scenes archive).2, 0 ≤ p ∧ p ≤ 1 := by
  intro colName scenes archive hle p hp
  rw [vlmProcess_progressLog] at hp
  exact vlmLoop_progress archive ⟨scenes, 0, [], []⟩ colName scenes.length
    (by simpa using hle) (fun q hq => absurd hq (List.not_mem_nil q)) p hp

/-- Claim C9, witness for the amended theorem: a one-image archive over a
one-record scene list reports progress 1, inside `[0,1]`. -/
theorem C9_amended_witness : 0 ≤ (1 : ℚ) ∧ (1 : ℚ) ≤ 1 :=
  C9_amended "annotation" [⟨"123.mp4_scene_1", []⟩]
    [⟨"123_scene_1.jpeg", true, Except.ok "y"⟩]
    (by with_unfolding_all decide) 1 (by with_unfolding_all decide)

/-- Claim C10: a `.metadata.json` archive entry with malformed JSON makes
`json.load` raise outside every try block, so the run aborts with an
uncaught exception and no output; by contrast, a failing inference call on
an image entry is caught and the run still finishes, writing the scene
list. -/
theorem C10_metadata_abort :
    (∀ (colName : String) (scenes : List SceneRecord)
       (archive : List ArchiveFile),
       archive.any isBadMeta = true →
       ∃ e, (vlmProcess colName scenes archive).1 = MatchOutcome.exception e) ∧
    (vlmProcess "annotation" [⟨"x", []⟩]
        [⟨"x.jpeg", true, Except.error "boom"⟩]).1 =
      MatchOutcome.finished [⟨"x", []⟩] := by
  constructor
  · intro colName scenes archive h
    obtain ⟨e, st', hloop⟩ :=
      vlmLoop_bad archive ⟨scenes, 0, [], []⟩ colName scenes.length h
    refine ⟨e, ?_⟩
    simp only [vlmProcess]
    rw [hloop]
  · with_unfolding_all rfl

/-- Claim C10, witness: a malformed metadata entry as the only archive
entry aborts the run with an exception. -/
theorem C10_witness :
    ∃ e, (vlmProcess "annotation" [⟨"x", []⟩]
      [⟨".metadata.json", false, Except.ok ""⟩]).1 = MatchOutcome.exception e :=
  C10_metadata_abort.1 "annotation" [⟨"x", []⟩]
    [⟨".metadata.json", false, Except.ok ""⟩] (by with_unfolding_all decide)

end ViSCAT
